import Mathlib

/-!
Verification of the stock-chart renderer (`script.js`).

Shallow embedding conventions:
* JS numbers on well-formed data are modelled as `ℚ` (the program only adds,
  subtracts, multiplies and divides decimal literals, so all values are exact
  rationals; no rounding occurs that the claims depend on).
* The non-finite sentinels `NaN` / `Infinity` / `undefined` that JS produces on
  malformed input or division by zero are modelled as `none` in `Option ℚ`
  (`jsDiv` returns `none` exactly when JS would return a non-finite value).
* Canvas drawing is modelled by the lists of coordinates the code feeds to the
  drawing primitives; event handlers are modelled as state-update functions.
-/

namespace StockChart

/-! ## CSV parsing (`processCSVData`, script.js lines 42-49)

Strings are modelled as `List Char` and the JS string operations the code
uses (`String.prototype.trim`, `String.prototype.split` with a one-character
separator, `parseFloat`) are defined structurally below, so that every
parsing run evaluates inside the kernel. -/

/-- JS whitespace (the characters relevant to `trim`/`parseFloat` here). -/
def isWhitespaceChar (c : Char) : Bool :=
  c = ' ' || c = '\t' || c = '\n' || c = '\r'

/-- JS `s.trim()`: drop leading and trailing whitespace. -/
def jsTrim (cs : List Char) : List Char :=
  ((cs.dropWhile isWhitespaceChar).reverse.dropWhile isWhitespaceChar).reverse

/-- JS `s.split(sep)` with a single-character separator: splits at every
occurrence, keeping empty pieces (`''.split(x) = ['']`). -/
def jsSplit (sep : Char) : List Char → List (List Char)
  | [] => [[]]
  | c :: cs =>
    let r := jsSplit sep cs
    if c = sep then [] :: r
    else
      match r with
      | [] => [[c]]
      | f :: rest => (c :: f) :: rest

/-- Consume a maximal run of decimal digits; returns the accumulated value,
the number of digits consumed and the remaining characters. -/
def parseDigits : ℕ → ℕ → List Char → ℕ × ℕ × List Char
  | v, n, [] => (v, n, [])
  | v, n, c :: cs =>
    if c.isDigit then parseDigits (10 * v + (c.toNat - 48)) (n + 1) cs
    else (v, n, c :: cs)

/-- Model of JS `parseFloat`: `none` is the NaN sentinel produced when the
string does not start (after optional whitespace and sign) with a digit or a
fraction digit. -/
def parseFloat (s : List Char) : Option ℚ :=
  let cs := s.dropWhile isWhitespaceChar
  let signRest : ℚ × List Char :=
    match cs with
    | '-' :: r => (-1, r)
    | '+' :: r => (1, r)
    | r => (1, r)
  let ipart := parseDigits 0 0 signRest.2
  let fpart :=
    match ipart.2.2 with
    | '.' :: r => parseDigits 0 0 r
    | r => (0, 0, r)
  if ipart.2.1 = 0 ∧ fpart.2.1 = 0 then none
  else
    let mantissa : ℚ := signRest.1 * ((ipart.1 : ℚ) + (fpart.1 : ℚ) / (10 : ℚ) ^ fpart.2.1)
    match fpart.2.2 with
    | 'e' :: r | 'E' :: r =>
      let esignRest : ℤ × List Char :=
        match r with
        | '-' :: rr => (-1, rr)
        | '+' :: rr => (1, rr)
        | rr => (1, rr)
      let epart := parseDigits 0 0 esignRest.2
      if epart.2.1 = 0 then some mantissa
      else some (mantissa * (10 : ℚ) ^ (esignRest.1 * (epart.1 : ℤ)))
    | _ => some mantissa

/-- One parsed OHLC record (`this.fullData` elements). A numeric field is
`none` when JS would hold `NaN` (unparseable text) or `undefined` (missing
field). -/
structure QuoteRecord where
  date : List Char
  open_ : Option ℚ
  high : Option ℚ
  low : Option ℚ
  close : Option ℚ
  deriving Repr, DecidableEq

/-- One element of `this.closingPrices`. -/
structure CloseEntry where
  date : List Char
  close : Option ℚ
  deriving Repr, DecidableEq

/-- Field `i` of the split line fed through `parseFloat`: `none` when the
field is missing (`undefined`) or unparseable (`NaN`). -/
def parseField (fields : List (List Char)) (i : ℕ) : Option ℚ :=
  fields[i]?.bind parseFloat

/-- The body of the `forEach` in `processCSVData`: split one line on commas,
keep field 0 verbatim as the date, parse fields 1-4 as numbers, and build the
elements pushed onto `fullData` and `closingPrices`. -/
def parseLine (line : List Char) : QuoteRecord × CloseEntry :=
  let fields := jsSplit ',' line
  let date := fields[0]?.getD []
  (⟨date, parseField fields 1, parseField fields 2, parseField fields 3, parseField fields 4⟩,
   ⟨date, parseField fields 4⟩)

/-- JS `csvData.trim().split('\n').slice(1)`: the data lines, header dropped. -/
def dataLines (csv : List Char) : List (List Char) :=
  (jsSplit '\n' (jsTrim csv)).drop 1

/-- The function `processCSVData`: returns the pair
`(fullData, closingPrices)` built by pushing one element onto each array per
data line. -/
def processCSVData (csv : List Char) : List QuoteRecord × List CloseEntry :=
  let lines := dataLines csv
  (lines.map fun l => (parseLine l).1, lines.map fun l => (parseLine l).2)

/-! ## Moving average (`calculateMovingAverage`, script.js lines 55-64)

The numeric core below works on records whose close is an exact rational
(the well-formed-data case; NaN propagation is covered separately by the
parsing theorems). -/

/-- A closing-price record with a numeric close. -/
structure ClosePoint where
  date : String
  close : ℚ
  deriving Repr, DecidableEq

/-- A moving-average point as pushed by `calculateMovingAverage`. -/
structure MAPoint where
  date : String
  avg : ℚ
  deriving Repr, DecidableEq

/-- JS `closingPrices.slice(a, b).reduce((acc, val) => acc + val.close, 0)`. -/
def sliceSum (cps : List ClosePoint) (a b : ℕ) : ℚ :=
  ((cps.drop a).take (b - a)).foldl (fun acc v => acc + v.close) 0

/-- The function `calculateMovingAverage` with its hard-coded `period = 20`:
for each index
`i` of `closingPrices` with `i ≥ period - 1`, push the record whose `avg` is
the sum over `slice(i - (period - 1), i + 1)` divided by `period` and whose
date is `closingPrices[i].date`. -/
def calculateMovingAverage (cps : List ClosePoint) : List MAPoint :=
  (List.range cps.length).filterMap fun i =>
    if 19 ≤ i then
      cps[i]?.map fun p => MAPoint.mk p.date (sliceSum cps (i - 19) (i + 1) / 20)
    else none

/-- The close at index `i` (0 when out of range; only used in range). -/
def closeAt (cps : List ClosePoint) (i : ℕ) : ℚ :=
  (cps[i]?.map ClosePoint.close).getD 0

/-- The date at index `i` ("" when out of range; only used in range). -/
def dateAt (cps : List ClosePoint) (i : ℕ) : String :=
  (cps[i]?.map ClosePoint.date).getD ""

/-- Spec-side description: the unweighted arithmetic mean of the 20 closing
prices at source indices `j, j+1, …, j+19`. -/
def windowMean (cps : List ClosePoint) (j : ℕ) : ℚ :=
  (((List.range 20).map fun k => closeAt cps (j + k)).sum) / 20

/-! ## Scale computation (`plotChart`, script.js lines 72-97) -/

/-- JS division where a zero denominator yields a non-finite value
(`Infinity` or `NaN`), modelled as `none`. -/
def jsDiv (a b : ℚ) : Option ℚ :=
  if b = 0 then none else some (a / b)

/-- The `xScale`/`yScale` computation at the top of `plotChart`:
`width = canvas.width - 2*padding`, `height = canvas.height - 2*padding`,
`maxPrice`/`minPrice` over the closes, `xScale = width / N`,
`yScale = height / (maxPrice - minPrice)`.  The result is `none` when either
scale is non-finite (empty series: `Math.max()` of nothing is `-Infinity`;
zero denominator: division by zero). -/
def chartScales (canvasW canvasH padding : ℚ) (closes : List ℚ) : Option (ℚ × ℚ) :=
  match closes with
  | [] => none
  | c :: rest =>
    let maxPrice := rest.foldl max c
    let minPrice := rest.foldl min c
    let w := canvasW - 2 * padding
    let h := canvasH - 2 * padding
    (jsDiv w ((c :: rest).length : ℚ)).bind fun xs =>
      (jsDiv h (maxPrice - minPrice)).map fun ys => (xs, ys)

/-! ## Coordinate maps (`plotClosingPrices` line 153-154, crosshair line 214) -/

/-- The x pixel of data index `i`: `padding + index * xScale`. -/
def indexToX (padding xScale : ℚ) (i : ℕ) : ℚ :=
  padding + i * xScale

/-- The y pixel of price `p`: `padding + height - (p - minPrice) * yScale`. -/
def priceToY (padding height minPrice yScale p : ℚ) : ℚ :=
  padding + height - (p - minPrice) * yScale

/-- The crosshair inverse map: `Math.floor((x - padding) / xScale)`. -/
def xToIndex (padding xScale x : ℚ) : ℤ :=
  ⌊(x - padding) / xScale⌋

/-- The crosshair hit test (script.js lines 214-219): compute the data index
and draw the OHLC text only when `0 ≤ dataIndex < fullData.length`;
`none` models "no OHLC text drawn". -/
def hitTest (padding xScale : ℚ) (n : ℕ) (x : ℚ) : Option ℤ :=
  let d := xToIndex padding xScale x
  if 0 ≤ d ∧ d < (n : ℤ) then some d else none

/-! ## Axis-label loop (`drawAxisLabels`, script.js lines 133-138)

`for (let i = 0; i < N; i += Math.floor(N / 10))` modelled with explicit
fuel: `none` means the fuel ran out, i.e. the loop has an execution prefix of
that length without reaching the exit test, so no finite fuel completes it. -/

/-- Fuel-indexed unfolding of the X-label `for` loop: returns the list of
label indices visited, or `none` when `fuel` iterations did not reach the
loop exit. -/
def xLabelLoop (n : ℕ) : ℕ → ℕ → Option (List ℕ)
  | 0, _ => none
  | fuel + 1, i =>
    if i < n then (xLabelLoop n fuel (i + n / 10)).map fun l => i :: l
    else some []

/-! ## Moving-average plot (`plotMovingAverage`, script.js lines 175-188) -/

/-- The points the `forEach` in `plotMovingAverage` feeds to the canvas path:
element `index` of the moving-average array is drawn at
`(padding + index * xScale, padding + height - (ma.avg - minPrice) * yScale)`. -/
def plotMovingAverage (padding xScale yScale height minPrice : ℚ)
    (ma : List MAPoint) : List (ℚ × ℚ) :=
  ma.enum.map fun ip =>
    (padding + (ip.1 : ℚ) * xScale, padding + height - (ip.2.avg - minPrice) * yScale)

/-! ## Wheel zoom (`addEventListeners`, script.js lines 230-241) -/

/-- The wheel handler's update of the zoom scalar (`stockCanvas.width`):
multiply by `1.1` when `deltaY < 0`, divide by `1.1` otherwise. -/
def wheelZoom (deltaY : ℚ) (w : ℚ) : ℚ :=
  if deltaY < 0 then w * (1.1 : ℚ) else w / (1.1 : ℚ)

/-! ## Concrete example inputs and field selectors used by the witnesses -/

/-- Numeric-field selector of a record, indexed as in the CSV line
(1 = open, 2 = high, 3 = low, 4 = close). -/
def recField (r : QuoteRecord) : ℕ → Option ℚ
  | 1 => r.open_
  | 2 => r.high
  | 3 => r.low
  | 4 => r.close
  | _ => none

/-- Twenty records with closes 0,…,19 (a concrete series for the
moving-average witness). -/
def exCloses : List ClosePoint :=
  (List.range 20).map fun k => ClosePoint.mk "d" (k : ℚ)

/-- A CSV body with one malformed row: non-numeric `high` field and a
missing fifth field. -/
def exCSV : List Char := ("date,open,high,low,close\n2024-01-01,1.5,abc,2").toList

/-! ## Helper lemmas -/

theorem foldl_add_close (l : List ClosePoint) (a : ℚ) :
    l.foldl (fun acc v => acc + v.close) a = a + (l.map ClosePoint.close).sum := by
  induction l generalizing a with
  | nil => simp
  | cons x xs ih =>
    rw [List.foldl_cons, ih, List.map_cons, List.sum_cons]
    ring

theorem calcMA_range (cps : List ClosePoint) :
    ∀ n, n ≤ cps.length →
      ((List.range n).filterMap fun i =>
        if 19 ≤ i then
          cps[i]?.map fun p => MAPoint.mk p.date (sliceSum cps (i - 19) (i + 1) / 20)
        else none) =
      (List.range (n - 19)).map fun j =>
        MAPoint.mk (dateAt cps (j + 19)) (sliceSum cps j (j + 20) / 20) := by
  intro n
  induction n with
  | zero => intro _; rfl
  | succ m ih =>
    intro hm
    rw [List.range_succ, List.filterMap_append, ih (by omega)]
    by_cases h19 : 19 ≤ m
    · have hm' : m < cps.length := by omega
      obtain ⟨p, hget⟩ : ∃ p, cps[m]? = some p := ⟨_, List.getElem?_eq_getElem hm'⟩
      have hsub : m + 1 - 19 = (m - 19) + 1 := by omega
      rw [hsub, List.range_succ, List.map_append]
      congr 1
      have e1 : m - 19 + 19 = m := by omega
      have e2 : m - 19 + 20 = m + 1 := by omega
      simp only [List.filterMap_cons, List.filterMap_nil, if_pos h19, hget, Option.map_some,
        List.map_cons, List.map_nil, e1, e2, dateAt]
      rfl
    · have h0 : m + 1 - 19 = m - 19 := by omega
      simp only [List.filterMap_cons, List.filterMap_nil, if_neg h19, h0, List.append_nil]

theorem calcMA_map (cps : List ClosePoint) :
    calculateMovingAverage cps =
      (List.range (cps.length - 19)).map fun j =>
        MAPoint.mk (dateAt cps (j + 19)) (sliceSum cps j (j + 20) / 20) :=
  calcMA_range cps cps.length le_rfl

theorem calcMA_length (cps : List ClosePoint) :
    (calculateMovingAverage cps).length = cps.length - 19 := by
  rw [calcMA_map]
  simp

theorem calcMA_getElem? (cps : List ClosePoint) (j : ℕ) (hj : j < cps.length - 19) :
    (calculateMovingAverage cps)[j]? =
      some (MAPoint.mk (dateAt cps (j + 19)) (sliceSum cps j (j + 20) / 20)) := by
  rw [calcMA_map, List.getElem?_map, List.getElem?_range hj]
  rfl

theorem map_close_take_drop (cps : List ClosePoint) (j : ℕ) (h : j + 20 ≤ cps.length) :
    ((cps.drop j).take 20).map ClosePoint.close =
      (List.range 20).map fun k => closeAt cps (j + k) := by
  apply List.ext_getElem?
  intro n
  rw [List.getElem?_map, List.getElem?_map, List.getElem?_take, List.getElem?_drop]
  by_cases hn : n < 20
  · have hjn : j + n < cps.length := by omega
    rw [if_pos hn, List.getElem?_range hn, List.getElem?_eq_getElem hjn]
    simp [closeAt, List.getElem?_eq_getElem hjn]
  · rw [if_neg hn, List.getElem?_eq_none (by simpa using Nat.le_of_not_lt hn)]
    rfl

theorem sliceSum_eq_window (cps : List ClosePoint) (j : ℕ) (h : j + 20 ≤ cps.length) :
    sliceSum cps j (j + 20) = ((List.range 20).map fun k => closeAt cps (j + k)).sum := by
  unfold sliceSum
  have h20 : j + 20 - j = 20 := by omega
  rw [h20, foldl_add_close, zero_add, map_close_take_drop cps j h]

/-! ## Claim theorems -/

/-- C1: `calculateMovingAverage` (period 20) yields a sequence of length
`N - 19` (natural subtraction, i.e. `max(0, N - 19)`), whose element `j` has
value equal to the arithmetic mean of the closing prices at source indices
`j` through `j + 19` and carries the date of the source record at index
`j + 19`. -/
theorem calculateMovingAverage_correct (cps : List ClosePoint) (j : ℕ)
    (hj : j < cps.length - 19) :
    (calculateMovingAverage cps).length = cps.length - 19 ∧
    (calculateMovingAverage cps)[j]? =
      some (MAPoint.mk (dateAt cps (j + 19)) (windowMean cps j)) := by
  refine ⟨calcMA_length cps, ?_⟩
  rw [calcMA_getElem? cps j hj, windowMean, sliceSum_eq_window cps j (by omega)]

theorem calculateMovingAverage_correct_witness :
    (calculateMovingAverage exCloses).length = exCloses.length - 19 ∧
    (calculateMovingAverage exCloses)[0]? =
      some (MAPoint.mk (dateAt exCloses 19) (windowMean exCloses 0)) :=
  calculateMovingAverage_correct exCloses 0 (by decide)

/-- C2: for a positive x scale, the crosshair inverse recovers every data
index from its plotted x pixel: `⌊(indexToX i - padding) / xScale⌋ = i`. -/
theorem xToIndex_indexToX (padding xScale : ℚ) (i : ℕ) (hx : 0 < xScale) :
    xToIndex padding xScale (indexToX padding xScale i) = i := by
  unfold xToIndex indexToX
  rw [add_sub_cancel_left, mul_div_cancel_right₀ _ hx.ne', Int.floor_natCast]

theorem xToIndex_indexToX_witness :
    xToIndex 60 5 (indexToX 60 5 3) = 3 :=
  xToIndex_indexToX 60 5 3 (by decide)

/-- C3 (code bug): the scale computation of `plotChart` has no fallback for a
degenerate series: with a single record, or with all closes equal, the
`yScale` division has a zero denominator, so a non-finite value is produced
(`none`) instead of the fallback finite scale the claim requires. -/
theorem chartScales_degenerate_nonfinite :
    chartScales 800 400 60 [(10 : ℚ)] = none ∧
    chartScales 800 400 60 [(10 : ℚ), 10] = none := by
  constructor <;> norm_num [chartScales, jsDiv]

/-- C4 (code bug): for a series of length 5, the X-label loop increments by
`⌊5/10⌋ = 0`, so no amount of fuel reaches the loop exit: the loop does not
terminate (labeling is not skipped). -/
theorem xLabelLoop_diverges (fuel : ℕ) : xLabelLoop 5 fuel 0 = none := by
  induction fuel with
  | zero => rfl
  | succ m ih => simp [xLabelLoop, ih]

/-- C6: `n` zoom-in wheel steps (any `deltaY < 0`) followed by `n` zoom-out
wheel steps (any `deltaY > 0`) restore the zoom scalar exactly (the model
computes in ℚ, so "within floating-point tolerance" holds with error 0). -/
theorem wheelZoom_roundtrip (w dIn dOut : ℚ) (n : ℕ) (hIn : dIn < 0) (hOut : 0 < dOut) :
    (wheelZoom dOut)^[n] ((wheelZoom dIn)^[n] w) = w := by
  have hf : wheelZoom dIn = fun x : ℚ => x * (1.1 : ℚ) := funext fun x => if_pos hIn
  have hg : wheelZoom dOut = fun x : ℚ => x / (1.1 : ℚ) :=
    funext fun x => if_neg (not_lt.mpr hOut.le)
  rw [hf, hg]
  have hinv : Function.LeftInverse (fun x : ℚ => x / (1.1 : ℚ)) (fun x : ℚ => x * (1.1 : ℚ)) :=
    fun x => mul_div_cancel_right₀ x (by norm_num)
  exact hinv.iterate n w

theorem wheelZoom_roundtrip_witness :
    (wheelZoom 1)^[3] ((wheelZoom (-1))^[3] 800) = 800 :=
  wheelZoom_roundtrip 800 (-1) 1 3 (by decide) (by decide)

/-- C5: element `j` of the moving-average sequence is plotted at
`x = padding + j·xScale` — the derived-sequence index is used directly as the
x index; for a positive x scale this differs from the x of the corresponding
source index `j + 19`, producing the left-shifted average line. -/
theorem plotMovingAverage_uses_derived_index (padding xScale yScale height minPrice : ℚ)
    (ma : List MAPoint) (j : ℕ) (m : MAPoint) (hm : ma[j]? = some m) (hx : 0 < xScale) :
    (plotMovingAverage padding xScale yScale height minPrice ma)[j]? =
      some (indexToX padding xScale j, priceToY padding height minPrice yScale m.avg) ∧
    indexToX padding xScale j ≠ indexToX padding xScale (j + 19) := by
  constructor
  · unfold plotMovingAverage
    rw [List.getElem?_map, List.getElem?_enum, hm]
    rfl
  · unfold indexToX
    push_cast
    intro h
    nlinarith [hx]

theorem plotMovingAverage_uses_derived_index_witness :
    (plotMovingAverage 60 5 2 280 1 [MAPoint.mk "d" 5])[0]? =
      some (indexToX 60 5 0, priceToY 60 280 1 2 (MAPoint.mk "d" 5).avg) ∧
    indexToX 60 5 0 ≠ indexToX 60 5 (0 + 19) :=
  plotMovingAverage_uses_derived_index 60 5 2 280 1 [MAPoint.mk "d" 5] 0
    (MAPoint.mk "d" 5) rfl (by decide)

/-- C7: when `maxPrice > minPrice` (and the viewport is taller than twice the
padding, so the content height is positive), `priceToY` with
`yScale = contentHeight / (maxPrice - minPrice)` is order-inverting —
`priceToY maxPrice < priceToY minPrice` — and maps every price in
`[minPrice, maxPrice]` into `[padding, canvasHeight - padding]`. -/
theorem priceToY_order_bounds (padding canvasH minPrice maxPrice p : ℚ)
    (hrange : minPrice < maxPrice) (hh : 2 * padding < canvasH)
    (hp1 : minPrice ≤ p) (hp2 : p ≤ maxPrice) :
    priceToY padding (canvasH - 2 * padding) minPrice
        ((canvasH - 2 * padding) / (maxPrice - minPrice)) maxPrice <
      priceToY padding (canvasH - 2 * padding) minPrice
        ((canvasH - 2 * padding) / (maxPrice - minPrice)) minPrice ∧
    padding ≤ priceToY padding (canvasH - 2 * padding) minPrice
        ((canvasH - 2 * padding) / (maxPrice - minPrice)) p ∧
    priceToY padding (canvasH - 2 * padding) minPrice
        ((canvasH - 2 * padding) / (maxPrice - minPrice)) p ≤ canvasH - padding := by
  unfold priceToY
  have hd : (0 : ℚ) < maxPrice - minPrice := by linarith
  have hhpos : (0 : ℚ) < canvasH - 2 * padding := by linarith
  have hys : (0 : ℚ) < (canvasH - 2 * padding) / (maxPrice - minPrice) := div_pos hhpos hd
  have hkey : (maxPrice - minPrice) * ((canvasH - 2 * padding) / (maxPrice - minPrice)) =
      canvasH - 2 * padding := mul_div_cancel₀ _ hd.ne'
  refine ⟨?_, ?_, ?_⟩
  · nlinarith
  · nlinarith [mul_le_mul_of_nonneg_right (sub_le_sub_right hp2 minPrice) hys.le]
  · nlinarith [mul_nonneg (sub_nonneg.mpr hp1) hys.le]

theorem priceToY_order_bounds_witness :
    priceToY 60 (400 - 2 * 60) 10 ((400 - 2 * 60) / (20 - 10)) 20 <
      priceToY 60 (400 - 2 * 60) 10 ((400 - 2 * 60) / (20 - 10)) 10 ∧
    (60 : ℚ) ≤ priceToY 60 (400 - 2 * 60) 10 ((400 - 2 * 60) / (20 - 10)) 15 ∧
    priceToY 60 (400 - 2 * 60) 10 ((400 - 2 * 60) / (20 - 10)) 15 ≤ 400 - 60 :=
  priceToY_order_bounds 60 400 10 20 15 (by decide) (by norm_num) (by decide) (by decide)

/-- C8: with a positive x scale, a pointer pixel strictly outside
`[padding, padding + N·xScale]` yields a data index outside `[0, N-1]`, so
the crosshair hit test draws no OHLC text. -/
theorem hitTest_outside_none (padding xScale x : ℚ) (n : ℕ) (hx : 0 < xScale)
    (hout : x < padding ∨ padding + n * xScale < x) :
    (xToIndex padding xScale x < 0 ∨ (n : ℤ) ≤ xToIndex padding xScale x) ∧
    hitTest padding xScale n x = none := by
  have hidx : xToIndex padding xScale x < 0 ∨ (n : ℤ) ≤ xToIndex padding xScale x := by
    rcases hout with h | h
    · left
      have hneg : (x - padding) / xScale < 0 := div_neg_of_neg_of_pos (by linarith) hx
      exact Int.floor_lt.mpr (by exact_mod_cast hneg)
    · right
      have hge : (n : ℚ) ≤ (x - padding) / xScale := by
        rw [le_div_iff₀ hx]
        linarith
      exact Int.le_floor.mpr (by exact_mod_cast hge)
  have hcond : ¬ (0 ≤ xToIndex padding xScale x ∧ xToIndex padding xScale x < (n : ℤ)) := by
    rcases hidx with h | h
    · exact fun hc => absurd hc.1 (by omega)
    · exact fun hc => absurd hc.2 (by omega)
  refine ⟨hidx, ?_⟩
  unfold hitTest
  exact if_neg hcond

theorem hitTest_outside_none_witness :
    (xToIndex 60 5 0 < 0 ∨ (10 : ℤ) ≤ xToIndex 60 5 0) ∧
    hitTest 60 5 10 0 = none :=
  hitTest_outside_none 60 5 0 10 (by decide) (Or.inl (by decide))

/-- C9: parsing never fails and never skips a row: every data line `i` yields
`fullData` record `i` (the row count is preserved), and a numeric field whose
text is missing (wrong field count) or not a parseable number is stored as
the `none` (NaN/undefined) sentinel in that field of the record. -/
theorem processCSVData_never_rejects (csv : List Char) (i : ℕ) (line : List Char)
    (hl : (dataLines csv)[i]? = some line) :
    (processCSVData csv).1.length = (dataLines csv).length ∧
    (processCSVData csv).1[i]? = some (parseLine line).1 ∧
    ∀ k, 1 ≤ k → k ≤ 4 → (jsSplit ',' line)[k]?.bind parseFloat = none →
      recField (parseLine line).1 k = none := by
  refine ⟨by simp [processCSVData], ?_, ?_⟩
  · simp [processCSVData, hl]
  · intro k h1 h4 hk
    interval_cases k <;> simpa [parseLine, recField, parseField] using hk

theorem processCSVData_never_rejects_witness :
    (processCSVData exCSV).1.length = (dataLines exCSV).length ∧
    (processCSVData exCSV).1[0]? = some (parseLine ("2024-01-01,1.5,abc,2").toList).1 ∧
    ∀ k, 1 ≤ k → k ≤ 4 →
      (jsSplit ',' ("2024-01-01,1.5,abc,2").toList)[k]?.bind parseFloat = none →
      recField (parseLine ("2024-01-01,1.5,abc,2").toList).1 k = none :=
  processCSVData_never_rejects exCSV 0 ("2024-01-01,1.5,abc,2").toList (by decide)

/-- C10: `fullData` and `closingPrices` are aligned: equal lengths, and at
every index the dates and closes agree; both preserve the input line order
(element `i` comes from data line `i`). -/
theorem fullData_closingPrices_aligned (csv : List Char) :
    (processCSVData csv).1.length = (processCSVData csv).2.length ∧
    ∀ i : ℕ,
      ((processCSVData csv).2[i]?.map CloseEntry.date =
        (processCSVData csv).1[i]?.map QuoteRecord.date) ∧
      ((processCSVData csv).2[i]?.map CloseEntry.close =
        (processCSVData csv).1[i]?.map QuoteRecord.close) ∧
      (processCSVData csv).1[i]? = ((dataLines csv)[i]?.map fun l => (parseLine l).1) := by
  refine ⟨by simp [processCSVData], fun i => ?_⟩
  cases h : (dataLines csv)[i]? with
  | none => simp [processCSVData, h]
  | some l => simp [processCSVData, h, parseLine]

end StockChart
